import Mathlib

/-!
Verification of the loss-landscape-anim core against its specification.

The repository source under verification is `loss_landscape_anim/main.py`,
the orchestration entry point. The two core engines it calls, the
dimensionality reducer (`DimReduction`) and the loss grid builder
(`LossGrid`), live in `loss_landscape_anim.loss_landscape`, which is not
part of the provided sources; those components are modelled here from the
specification, as marked in the doc comments. Exact rational arithmetic
stands in for floating point, so every produced value is finite by
construction.
-/

namespace LLA

/-- A flattened parameter vector: a flat ordered sequence of numbers. -/
abbrev Vec := List ℚ

/-- One recorded training step: the dict with keys flat_w, loss, accuracy
that main.py reads out of `model.optim_path`. -/
structure PathRecord where
  flat_w : Vec
  loss : ℚ
  accuracy : ℚ
deriving Repr, DecidableEq

/-- Dot product of two flat vectors. -/
def dot (a b : Vec) : ℚ := (List.zipWith (· * ·) a b).sum

/-- Pointwise difference of two flat vectors. -/
def subVec (a b : Vec) : Vec := List.zipWith (· - ·) a b

/-- Scale a flat vector by a constant. -/
def scaleVec (c : ℚ) (v : Vec) : Vec := v.map (fun x => c * x)

/-- Modelled from the spec: the ReferencePoint of a trajectory is the last
recorded flattened parameter vector (the final trained parameters). -/
def referencePoint (traj : List Vec) : Vec := traj.getLastD []

/-- Modelled from the spec: center the trajectory rows by subtracting the
ReferencePoint (last step) from every row, so the final training point maps
to the 2D origin. This is the shared centering step of the dimension
reducer (module loss_landscape_anim.loss_landscape, absent from src). -/
def centerRows (traj : List Vec) : List Vec :=
  traj.map (fun r => subVec r (referencePoint traj))

/-- Modelled from the spec: project every row onto the direction pair by
dot products, giving the 2D path. -/
def project2 (d1 d2 : Vec) (rows : List Vec) : List (ℚ × ℚ) :=
  rows.map (fun r => (dot r d1, dot r d2))

theorem zipWith_mul_replicate_zero (n : ℕ) (u : List ℚ) :
    (List.zipWith (· * ·) (List.replicate n 0) u).sum = 0 := by
  induction n generalizing u with
  | zero => simp
  | succ m ih =>
    cases u with
    | nil => simp
    | cons b v => simp [List.replicate_succ, ih v]

theorem dot_subVec_self (r d : Vec) : dot (subVec r r) d = 0 := by
  have hrep : subVec r r = List.replicate r.length 0 := by
    simp [subVec]
  rw [dot, hrep, zipWith_mul_replicate_zero]

theorem centerRows_length (traj : List Vec) :
    (centerRows traj).length = traj.length := by
  simp [centerRows]

theorem project2_length (d1 d2 : Vec) (rows : List Vec) :
    (project2 d1 d2 rows).length = rows.length := by
  simp [project2]

theorem centerRows_getLast? (traj : List Vec) (h : traj ≠ []) :
    (centerRows traj).getLast? =
      some (subVec (referencePoint traj) (referencePoint traj)) := by
  simp only [centerRows]
  rw [List.getLast?_map]
  rw [List.getLast?_eq_getLast traj h]
  simp [referencePoint, List.getLastD_eq_getLast?, List.getLast?_eq_getLast traj h]

/-- Modelled from the spec: the error taxonomy of the dimension reducer
(failure conditions of reduce, section 4.1 / section 7 of the spec). -/
inductive ReduceError where
  | EmptyTrajectoryError
  | InsufficientStepsError
  | DirectionShapeMismatch
deriving Repr, DecidableEq

/-- Modelled from the spec: the result record of reduce, holding path_2d,
reduced_dirs and the optional pcvariances. -/
structure Reduced where
  path_2d : List (ℚ × ℚ)
  reduced_dirs : Vec × Vec
  pcvariances : Option (ℚ × ℚ)
deriving Repr, DecidableEq

/-- Modelled from the spec: pcvariances is the pair of the two leading
singular values squared, each normalized by the sum of all singular values
squared. -/
def pcvarPair (svals : List ℚ) : ℚ × ℚ :=
  let s := (svals.map (fun v => v ^ 2)).sum
  match svals with
  | s0 :: s1 :: _ => (s0 ^ 2 / s, s1 ^ 2 / s)
  | _ => (0, 0)

/-- Modelled from the spec: reduce with method pca (the DimReduction class
of loss_landscape_anim.loss_landscape, absent from src). The singular value
decomposition of the centered matrix has no exact computable form over the
rationals, so the two top right-singular vectors d1, d2 and the singular
values svals of the centered matrix are taken as inputs; the centering,
projection and variance normalization follow the words of the spec. Fails
with InsufficientStepsError when the trajectory has fewer than 2 steps. -/
def pcaReduce (traj : List Vec) (d1 d2 : Vec) (svals : List ℚ) :
    Except ReduceError Reduced :=
  if traj.length < 2 then .error .InsufficientStepsError
  else .ok ⟨project2 d1 d2 (centerRows traj), (d1, d2), some (pcvarPair svals)⟩

/-- A linear congruential step standing in for the seeded pseudo-random
number generator consumed by the random method. -/
def lcg (n : ℕ) : ℕ := (1664525 * n + 1013904223) % 2 ^ 32

/-- Draw a list of dim pseudo-random rationals in [-1/2, 1/2) from the
generator state, returning the drawn vector and the final state. -/
def drawList (st : ℕ) (dim : ℕ) : Vec × ℕ :=
  match dim with
  | 0 => ([], st)
  | n + 1 =>
    let st1 := lcg st
    let rest := drawList st1 n
    (((st1 : ℚ) / 2 ^ 32 - 1 / 2) :: rest.1, rest.2)

/-- Gram-Schmidt step: orthogonalize b against a. -/
def orthAgainst (a b : Vec) : Vec :=
  subVec b (scaleVec (dot b a / dot a a) a)

/-- Normalization of a drawn direction. Modelled from the spec: the source
normalizes to unit Euclidean length, which needs a square root and has no
exact rational representative; here the vector is scaled by the reciprocal
of its squared norm instead. No verified claim depends on the exact
scaling, only on its determinism. -/
def normalizeDir (v : Vec) : Vec := scaleVec (1 / dot v v) v

/-- Modelled from the spec: reduce with method random (absent from src).
Draw two random vectors of the trajectory dimension, seeded if a seed is
given (otherwise from the ambient generator state st), orthogonalize the
second against the first, normalize both, then center and project exactly
like pca. No pcvariances is produced. -/
def randomReduce (traj : List Vec) (seed : Option ℕ) (st : ℕ) :
    Except ReduceError Reduced :=
  if traj.length < 2 then .error .InsufficientStepsError
  else
    let st0 := match seed with
      | some s => s
      | none => st
    let dim := (referencePoint traj).length
    let draw1 := drawList st0 dim
    let draw2 := drawList draw1.2 dim
    let d1 := normalizeDir draw1.1
    let d2 := normalizeDir (orthAgainst d1 draw2.1)
    .ok ⟨project2 d1 d2 (centerRows traj), (d1, d2), none⟩

/-- Modelled from the spec: reduce with method custom (absent from src).
The two supplied vectors are used verbatim as reduced_dirs, with no
normalization or orthogonalization; fails with DirectionShapeMismatch when
either supplied dimension differs from the trajectory dimension, and with
EmptyTrajectoryError on an empty trajectory. -/
def customReduce (traj : List Vec) (dirs : Vec × Vec) :
    Except ReduceError Reduced :=
  if traj.length = 0 then .error .EmptyTrajectoryError
  else
    let dim := (referencePoint traj).length
    if dirs.1.length ≠ dim ∨ dirs.2.length ≠ dim then
      .error .DirectionShapeMismatch
    else
      .ok ⟨project2 dirs.1 dirs.2 (centerRows traj), dirs, none⟩

/-- Modelled from the spec: the reduction method selector. -/
inductive Method where
  | pca
  | random
  | custom
deriving Repr, DecidableEq

/-- Modelled from the spec: the single reduce entry point branching on the
method string. The pca branch receives the SVD data (svdDirs, svals) and
the random branch the ambient generator state st, as explained on the
per-method definitions. -/
def reduce (method : Method) (traj : List Vec) (customDirs : Vec × Vec)
    (svdDirs : Vec × Vec) (svals : List ℚ) (seed : Option ℕ) (st : ℕ) :
    Except ReduceError Reduced :=
  match method with
  | .pca => pcaReduce traj svdDirs.1 svdDirs.2 svals
  | .random => randomReduce traj seed st
  | .custom => customReduce traj customDirs

/-! ### Loss grid builder, modelled from the spec -/

/-- Minimum of a list of rationals, head-seeded fold (0 on empty input,
which never arises for a nonempty path). -/
def minD : List ℚ → ℚ
  | [] => 0
  | a :: t => t.foldl min a

/-- Maximum of a list of rationals, head-seeded fold. -/
def maxD : List ℚ → ℚ
  | [] => 0
  | a :: t => t.foldl max a

/-- Modelled from the spec: the fixed absolute margin the grid builder
falls back to when the extent of the path along an axis is degenerate
(zero width). The concrete value is a visualization default the spec
leaves open. -/
def fixedMargin : ℚ := 1

/-- Modelled from the spec: the margin added on each side of an axis is a
fraction of the extent of the path along that axis, falling back to the
fixed absolute margin when the extent is zero. -/
def marginOf (frac extent : ℚ) : ℚ :=
  if extent = 0 then fixedMargin else frac * extent

/-- The rectangular bounds of the loss grid. -/
structure GridBounds where
  xlo : ℚ
  xhi : ℚ
  ylo : ℚ
  yhi : ℚ
deriving Repr, DecidableEq

/-- Modelled from the spec: the axis bounds of the grid are the min and
max of the path coordinates, extended on both sides by the margin. -/
def boundsOf (frac : ℚ) (path : List (ℚ × ℚ)) : GridBounds :=
  let xs := path.map Prod.fst
  let ys := path.map Prod.snd
  let mx := marginOf frac (maxD xs - minD xs)
  let my := marginOf frac (maxD ys - minD ys)
  ⟨minD xs - mx, maxD xs + mx, minD ys - my, maxD ys + my⟩

/-- res evenly spaced points from lo to hi inclusive (linspace). -/
def linspace (lo hi : ℚ) (res : ℕ) : List ℚ :=
  (List.range res).map (fun (i : ℕ) => lo + (hi - lo) * (i : ℚ) / ((res : ℚ) - 1))

/-- Modelled from the spec: coords is the res times res evenly spaced
lattice over the grid bounds. -/
def coordsOf (res : ℕ) (b : GridBounds) : List (List (ℚ × ℚ)) :=
  (linspace b.ylo b.yhi res).map
    (fun y => (linspace b.xlo b.xhi res).map (fun x => (x, y)))

/-- Modelled from the spec: the log-loss surface aligned with coords: at
each lattice coordinate the raw loss is evaluated (lossAt abstracts the
full-dataset forward evaluation of the reconstructed parameter vector) and
the log transform is applied to it. Generic in the value type so the
transform can be instantiated with the real logarithm in the theorems. -/
def lossValuesLog2d {α β : Type} (transform : β → α) (lossAt : ℚ → ℚ → β)
    (coords : List (List (ℚ × ℚ))) : List (List α) :=
  coords.map (fun row => row.map (fun p => transform (lossAt p.1 p.2)))

/-- Modelled from the spec: true_optim_point is the projection of the
ReferencePoint itself in the centered basis. -/
def trueOptimPoint (traj : List Vec) (d1 d2 : Vec) : ℚ × ℚ :=
  (dot (subVec (referencePoint traj) (referencePoint traj)) d1,
   dot (subVec (referencePoint traj) (referencePoint traj)) d2)

/-- Modelled from the spec: loss_min is the loss recorded for the
ReferencePoint by the original training trajectory, not re-derived from
any grid evaluation. -/
def lossMin (steps : List PathRecord) : ℚ :=
  (steps.getLastD ⟨[], 0, 0⟩).loss

/-! ### Code embedded from src/loss_landscape_anim/main.py -/

/-- Python truthiness of the optional integer seed argument, as tested by
line 49 of main.py (`if seed:`): None and 0 are falsy. -/
def seedTruthy (seed : Option ℤ) : Bool :=
  match seed with
  | none => false
  | some n => decide (n ≠ 0)

/-- Lines 49-50 of main.py: the torch global generator state after the
conditional torch.manual_seed call. The state is modelled as an abstract
integer; manual_seed installs a state determined by the seed, and a falsy
seed leaves the ambient state g untouched. -/
def globalRngAfterSeedLine (seed : Option ℤ) (g : ℤ) : ℤ :=
  match seed with
  | none => g
  | some n => if n ≠ 0 then n else g

/-- Line 115 of main.py: the seed argument is forwarded to DimReduction
unchanged. -/
def dimReductionSeedArg (seed : Option ℤ) : Option ℤ := seed

/-- Lines 99-104 of main.py: unzip the sampled optimization path records
into the three parallel lists optim_path, loss_path, accu_path. -/
def unzipOptimPath (sampled : List PathRecord) :
    List Vec × List ℚ × List ℚ :=
  (sampled.map (fun p => p.flat_w),
   sampled.map (fun p => p.loss),
   sampled.map (fun p => p.accuracy))

/-- Lines 146-147 of main.py: the return value of loss_landscape_anim is
the unzipped triple when return_data is true, and None otherwise. -/
def lossLandscapeAnimReturn (returnData : Bool) (sampled : List PathRecord) :
    Option (List Vec × List ℚ × List ℚ) :=
  if returnData then some (unzipOptimPath sampled) else none

/-! ### Helper lemmas -/

theorem foldl_min_le_init (t : List ℚ) (a : ℚ) : t.foldl min a ≤ a := by
  induction t generalizing a with
  | nil => exact le_refl a
  | cons c t ih =>
    calc (c :: t).foldl min a = t.foldl min (min a c) := rfl
    _ ≤ min a c := ih _
    _ ≤ a := min_le_left _ _

theorem foldl_min_le_mem (t : List ℚ) (a b : ℚ) (h : b ∈ t) :
    t.foldl min a ≤ b := by
  induction t generalizing a with
  | nil => cases h
  | cons c t ih =>
    rcases List.mem_cons.mp h with hc | ht
    · subst hc
      calc (b :: t).foldl min a = t.foldl min (min a b) := rfl
      _ ≤ min a b := foldl_min_le_init t _
      _ ≤ b := min_le_right _ _
    · exact ih _ ht

theorem minD_le_of_mem (l : List ℚ) (x : ℚ) (h : x ∈ l) : minD l ≤ x := by
  cases l with
  | nil => cases h
  | cons a t =>
    rcases List.mem_cons.mp h with ha | ht
    · subst ha; exact foldl_min_le_init t x
    · exact foldl_min_le_mem t a x ht

theorem init_le_foldl_max (t : List ℚ) (a : ℚ) : a ≤ t.foldl max a := by
  induction t generalizing a with
  | nil => exact le_refl a
  | cons c t ih =>
    calc a ≤ max a c := le_max_left _ _
    _ ≤ t.foldl max (max a c) := ih _
    _ = (c :: t).foldl max a := rfl

theorem mem_le_foldl_max (t : List ℚ) (a b : ℚ) (h : b ∈ t) :
    b ≤ t.foldl max a := by
  induction t generalizing a with
  | nil => cases h
  | cons c t ih =>
    rcases List.mem_cons.mp h with hc | ht
    · subst hc
      calc b ≤ max a b := le_max_right _ _
      _ ≤ t.foldl max (max a b) := init_le_foldl_max t _
      _ = (b :: t).foldl max a := rfl
    · exact ih _ ht

theorem le_maxD_of_mem (l : List ℚ) (x : ℚ) (h : x ∈ l) : x ≤ maxD l := by
  cases l with
  | nil => cases h
  | cons a t =>
    rcases List.mem_cons.mp h with ha | ht
    · subst ha; exact init_le_foldl_max t x
    · exact mem_le_foldl_max t a x ht

/-! ### Claim theorems -/

/-- C1: for every trajectory of length T at least 2, reduce with method
pca returns a path_2d of exactly T coordinate pairs (each an exact
rational, hence finite) whose last pair equals (0,0), because every row is
centered by subtracting the last trajectory step before projection. -/
theorem pca_path_length_and_origin (traj : List Vec) (d1 d2 : Vec)
    (svals : List ℚ) (h : 2 ≤ traj.length) :
    ∃ r, pcaReduce traj d1 d2 svals = .ok r ∧
      r.path_2d.length = traj.length ∧
      r.path_2d.getLast? = some (0, 0) := by
  have hne : traj ≠ [] := by
    intro he; rw [he] at h; simp at h
  refine ⟨⟨project2 d1 d2 (centerRows traj), (d1, d2), some (pcvarPair svals)⟩,
    ?_, ?_, ?_⟩
  · simp only [pcaReduce, if_neg (not_lt.mpr h)]
  · rw [project2_length, centerRows_length]
  · show (project2 d1 d2 (centerRows traj)).getLast? = some (0, 0)
    rw [project2, List.getLast?_map, centerRows_getLast? traj hne]
    simp [dot_subVec_self]

/-- Witness for C1 at a concrete two-step trajectory. -/
theorem pca_path_length_and_origin_witness :
    ∃ r, pcaReduce [[(0 : ℚ)], [1]] [1] [1] [] = .ok r ∧
      r.path_2d.length = ([[(0 : ℚ)], [1]] : List Vec).length ∧
      r.path_2d.getLast? = some (0, 0) :=
  pca_path_length_and_origin [[0], [1]] [1] [1] [] (by decide)

/-- C2: true_optim_point equals the last element of path_2d (both are the
projection of the centered ReferencePoint), and loss_min equals the last
recorded loss of the original trajectory, taken from the recorded
training data. -/
theorem trueOptim_is_last_and_lossMin (steps : List PathRecord)
    (d1 d2 : Vec) (h : steps ≠ []) :
    (project2 d1 d2 (centerRows (steps.map (fun p => p.flat_w)))).getLast?
      = some (trueOptimPoint (steps.map (fun p => p.flat_w)) d1 d2) ∧
    lossMin steps = (steps.getLast h).loss := by
  constructor
  · have hne : steps.map (fun p => p.flat_w) ≠ [] := by
      simp [h]
    rw [project2, List.getLast?_map,
      centerRows_getLast? (steps.map (fun p => p.flat_w)) hne]
    rfl
  · rw [lossMin, List.getLastD_eq_getLast?, List.getLast?_eq_getLast steps h]
    rfl

/-- Witness for C2 at a concrete one-step trajectory. -/
theorem trueOptim_is_last_and_lossMin_witness :
    (project2 [1] [1] (centerRows (([⟨[(5 : ℚ)], 7, 9⟩] : List PathRecord).map
        (fun p => p.flat_w)))).getLast?
      = some (trueOptimPoint (([⟨[(5 : ℚ)], 7, 9⟩] : List PathRecord).map
        (fun p => p.flat_w)) [1] [1]) ∧
    lossMin [⟨[(5 : ℚ)], 7, 9⟩] =
      (([⟨[(5 : ℚ)], 7, 9⟩] : List PathRecord).getLast (by decide)).loss :=
  trueOptim_is_last_and_lossMin [⟨[5], 7, 9⟩] [1] [1] (by decide)

/-- C3: for every non-degenerate path (positive extent in x and in y) and
positive margin fraction, the grid bounds strictly contain every point of
the path: no path point lies on or outside the boundary. -/
theorem grid_bounds_strictly_contain (frac : ℚ) (path : List (ℚ × ℚ))
    (hfrac : 0 < frac)
    (hx : minD (path.map Prod.fst) < maxD (path.map Prod.fst))
    (hy : minD (path.map Prod.snd) < maxD (path.map Prod.snd)) :
    ∀ p ∈ path, (boundsOf frac path).xlo < p.1 ∧ p.1 < (boundsOf frac path).xhi ∧
      (boundsOf frac path).ylo < p.2 ∧ p.2 < (boundsOf frac path).yhi := by
  intro p hp
  have hpx : p.1 ∈ path.map Prod.fst := List.mem_map_of_mem Prod.fst hp
  have hpy : p.2 ∈ path.map Prod.snd := List.mem_map_of_mem Prod.snd hp
  have hx1 : minD (path.map Prod.fst) ≤ p.1 := minD_le_of_mem _ _ hpx
  have hx2 : p.1 ≤ maxD (path.map Prod.fst) := le_maxD_of_mem _ _ hpx
  have hy1 : minD (path.map Prod.snd) ≤ p.2 := minD_le_of_mem _ _ hpy
  have hy2 : p.2 ≤ maxD (path.map Prod.snd) := le_maxD_of_mem _ _ hpy
  have hmx : 0 < marginOf frac (maxD (path.map Prod.fst) - minD (path.map Prod.fst)) := by
    rw [marginOf, if_neg (by linarith)]
    exact mul_pos hfrac (by linarith)
  have hmy : 0 < marginOf frac (maxD (path.map Prod.snd) - minD (path.map Prod.snd)) := by
    rw [marginOf, if_neg (by linarith)]
    exact mul_pos hfrac (by linarith)
  simp only [boundsOf]
  refine ⟨by linarith, by linarith, by linarith, by linarith⟩

/-- Witness for C3 at a concrete two-point path with margin 1/5. -/
theorem grid_bounds_strictly_contain_witness :
    (0 : ℚ) < 1 / 5 ∧
    minD ([((0 : ℚ), (0 : ℚ)), (2, 1)].map Prod.fst) <
      maxD ([((0 : ℚ), (0 : ℚ)), (2, 1)].map Prod.fst) ∧
    minD ([((0 : ℚ), (0 : ℚ)), (2, 1)].map Prod.snd) <
      maxD ([((0 : ℚ), (0 : ℚ)), (2, 1)].map Prod.snd) ∧
    ∀ p ∈ [((0 : ℚ), (0 : ℚ)), (2, 1)],
      (boundsOf (1 / 5) [((0 : ℚ), (0 : ℚ)), (2, 1)]).xlo < p.1 ∧
      p.1 < (boundsOf (1 / 5) [((0 : ℚ), (0 : ℚ)), (2, 1)]).xhi ∧
      (boundsOf (1 / 5) [((0 : ℚ), (0 : ℚ)), (2, 1)]).ylo < p.2 ∧
      p.2 < (boundsOf (1 / 5) [((0 : ℚ), (0 : ℚ)), (2, 1)]).yhi :=
  ⟨by norm_num, by norm_num [minD, maxD], by norm_num [minD, maxD],
    grid_bounds_strictly_contain (1 / 5) [(0, 0), (2, 1)] (by norm_num)
      (by norm_num [minD, maxD]) (by norm_num [minD, maxD])⟩

/-- C4: for every build with resolution res, the log surface has shape
res times res, each entry is the stable log transform log (loss + eps) of
the raw loss at the matching grid coordinate, the argument of the log is
strictly positive (so each entry is a well defined, finite real), and the
inverse transform exp minus eps recovers the raw loss exactly. -/
theorem loss_grid_log_surface (res : ℕ) (b : GridBounds)
    (lossAt : ℚ → ℚ → ℝ) (eps : ℝ) (heps : 0 < eps)
    (hloss : ∀ x y, 0 ≤ lossAt x y) :
    (lossValuesLog2d (fun l => Real.log (l + eps)) lossAt (coordsOf res b)).length = res ∧
    (∀ row ∈ lossValuesLog2d (fun l => Real.log (l + eps)) lossAt (coordsOf res b),
      row.length = res) ∧
    List.Forall₂ (List.Forall₂ (fun (p : ℚ × ℚ) (v : ℝ) =>
        0 < lossAt p.1 p.2 + eps ∧ v = Real.log (lossAt p.1 p.2 + eps) ∧
        Real.exp v - eps = lossAt p.1 p.2))
      (coordsOf res b)
      (lossValuesLog2d (fun l => Real.log (l + eps)) lossAt (coordsOf res b)) := by
  refine ⟨?_, ?_, ?_⟩
  · rw [lossValuesLog2d, List.length_map, coordsOf, List.length_map,
      linspace, List.length_map, List.length_range]
  · intro row hrow
    simp only [lossValuesLog2d, coordsOf, List.mem_map] at hrow
    obtain ⟨r, ⟨y, _, hr⟩, hrow⟩ := hrow
    subst hrow
    subst hr
    rw [List.length_map, List.length_map, linspace, List.length_map,
      List.length_range]
  · rw [lossValuesLog2d, List.forall₂_map_right_iff]
    rw [List.forall₂_same]
    intro row _
    rw [List.forall₂_map_right_iff, List.forall₂_same]
    intro p _
    have hpos : 0 < lossAt p.1 p.2 + eps := by
      have := hloss p.1 p.2
      linarith
    exact ⟨hpos, rfl, by rw [Real.exp_log hpos]; ring⟩

/-- Witness for C4 at resolution 2 over the unit bounds, a zero loss
surface and eps equal to 1. -/
theorem loss_grid_log_surface_witness :
    (0 : ℝ) < 1 ∧
    ((lossValuesLog2d (fun l => Real.log (l + (1 : ℝ))) (fun _ _ => (0 : ℝ))
        (coordsOf 2 ⟨0, 1, 0, 1⟩)).length = 2 ∧
    (∀ row ∈ lossValuesLog2d (fun l => Real.log (l + (1 : ℝ))) (fun _ _ => (0 : ℝ))
        (coordsOf 2 ⟨0, 1, 0, 1⟩), row.length = 2) ∧
    List.Forall₂ (List.Forall₂ (fun (p : ℚ × ℚ) (v : ℝ) =>
        0 < (fun _ _ => (0 : ℝ)) p.1 p.2 + 1 ∧
        v = Real.log ((fun _ _ => (0 : ℝ)) p.1 p.2 + 1) ∧
        Real.exp v - 1 = (fun _ _ => (0 : ℝ)) p.1 p.2))
      (coordsOf 2 ⟨0, 1, 0, 1⟩)
      (lossValuesLog2d (fun l => Real.log (l + (1 : ℝ))) (fun _ _ => (0 : ℝ))
        (coordsOf 2 ⟨0, 1, 0, 1⟩))) :=
  ⟨by norm_num,
    loss_grid_log_surface 2 ⟨0, 1, 0, 1⟩ (fun _ _ => 0) 1 (by norm_num)
      (fun _ _ => le_refl 0)⟩

/-- C5: for every pair of direction vectors of the trajectory dimension,
reduce with method custom returns reduced_dirs exactly equal to the
supplied pair, with no normalization or orthogonalization applied. -/
theorem custom_dirs_verbatim (traj : List Vec) (d1 d2 : Vec)
    (h : traj ≠ [])
    (h1 : d1.length = (referencePoint traj).length)
    (h2 : d2.length = (referencePoint traj).length) :
    ∃ r, customReduce traj (d1, d2) = .ok r ∧ r.reduced_dirs = (d1, d2) := by
  refine ⟨⟨project2 d1 d2 (centerRows traj), (d1, d2), none⟩, ?_, rfl⟩
  have hlen : traj.length ≠ 0 := by
    intro h0
    exact h (List.length_eq_zero.mp h0)
  simp only [customReduce, if_neg hlen]
  rw [if_neg]
  push_neg
  exact ⟨h1, h2⟩

/-- Witness for C5 at a concrete trajectory of dimension 2. -/
theorem custom_dirs_verbatim_witness :
    ∃ r, customReduce [[(3 : ℚ), 4]] ([1, 0], [0, 1]) = .ok r ∧
      r.reduced_dirs = ([1, 0], [0, 1]) :=
  custom_dirs_verbatim [[3, 4]] [1, 0] [0, 1] (by decide) (by decide) (by decide)

/-- C6: for every trajectory of length at least 2, the pcvariances pair of
reduce with method pca (each a leading squared singular value divided by
the sum of all squared singular values) has both components in the unit
interval, in non-increasing order, with sum at most 1. -/
theorem pcvariances_invariants (traj : List Vec) (d1 d2 : Vec)
    (s0 s1 : ℚ) (rest : List ℚ) (htraj : 2 ≤ traj.length)
    (h10 : s1 ≤ s0) (h1 : 0 ≤ s1) :
    ∃ r, pcaReduce traj d1 d2 (s0 :: s1 :: rest) = .ok r ∧
      r.pcvariances = some (pcvarPair (s0 :: s1 :: rest)) ∧
      0 ≤ (pcvarPair (s0 :: s1 :: rest)).2 ∧
      (pcvarPair (s0 :: s1 :: rest)).2 ≤ (pcvarPair (s0 :: s1 :: rest)).1 ∧
      (pcvarPair (s0 :: s1 :: rest)).1 ≤ 1 ∧
      (pcvarPair (s0 :: s1 :: rest)).1 + (pcvarPair (s0 :: s1 :: rest)).2 ≤ 1 := by
  refine ⟨⟨project2 d1 d2 (centerRows traj), (d1, d2),
    some (pcvarPair (s0 :: s1 :: rest))⟩, ?_, rfl, ?_, ?_, ?_, ?_⟩
  · simp only [pcaReduce, if_neg (not_lt.mpr htraj)]
  all_goals
    have hq : 0 ≤ (rest.map (fun v => v ^ 2)).sum := by
      apply List.sum_nonneg
      intro x hx
      obtain ⟨v, _, hv⟩ := List.mem_map.mp hx
      subst hv
      exact sq_nonneg v
    have hpair : pcvarPair (s0 :: s1 :: rest) =
        (s0 ^ 2 / (s0 ^ 2 + (s1 ^ 2 + (rest.map (fun v => v ^ 2)).sum)),
         s1 ^ 2 / (s0 ^ 2 + (s1 ^ 2 + (rest.map (fun v => v ^ 2)).sum))) := by
      simp [pcvarPair]
    have hsq : s1 ^ 2 ≤ s0 ^ 2 := pow_le_pow_left₀ h1 h10 2
    rcases lt_or_eq_of_le (by positivity :
        (0 : ℚ) ≤ s0 ^ 2 + (s1 ^ 2 + (rest.map (fun v => v ^ 2)).sum)) with hS | hS
  · rw [hpair]
    exact div_nonneg (sq_nonneg s1) (le_of_lt hS)
  · rw [hpair]
    simp [← hS]
  · rw [hpair]
    exact (div_le_div_iff_of_pos_right hS).mpr hsq
  · rw [hpair]
    simp [← hS]
  · rw [hpair]
    rw [div_le_one hS]
    linarith [sq_nonneg s1]
  · rw [hpair]
    simp [← hS]
  · rw [hpair]
    rw [div_add_div_same, div_le_one hS]
    linarith
  · rw [hpair]
    simp [← hS]

/-- Witness for C6 at a concrete two-step trajectory with singular values
3 and 1. -/
theorem pcvariances_invariants_witness :
    ∃ r, pcaReduce [[(0 : ℚ)], [1]] [1] [1] [3, 1] = .ok r ∧
      r.pcvariances = some (pcvarPair [3, 1]) ∧
      0 ≤ (pcvarPair [(3 : ℚ), 1]).2 ∧
      (pcvarPair [(3 : ℚ), 1]).2 ≤ (pcvarPair [(3 : ℚ), 1]).1 ∧
      (pcvarPair [(3 : ℚ), 1]).1 ≤ 1 ∧
      (pcvarPair [(3 : ℚ), 1]).1 + (pcvarPair [(3 : ℚ), 1]).2 ≤ 1 :=
  pcvariances_invariants [[0], [1]] [1] [1] 3 1 [] (by decide) (by norm_num)
    (by norm_num)

/-- C7: reduce with method custom fails immediately with
DirectionShapeMismatch whenever either supplied direction has a dimension
different from the trajectory dimension. -/
theorem custom_dim_mismatch (traj : List Vec) (d1 d2 : Vec)
    (h : traj ≠ [])
    (hmis : d1.length ≠ (referencePoint traj).length ∨
      d2.length ≠ (referencePoint traj).length) :
    customReduce traj (d1, d2) = .error .DirectionShapeMismatch := by
  have hlen : traj.length ≠ 0 := by
    intro h0
    exact h (List.length_eq_zero.mp h0)
  simp only [customReduce, if_neg hlen]
  rw [if_pos hmis]

/-- Witness for C7: a one-dimensional first direction against a
two-dimensional trajectory. -/
theorem custom_dim_mismatch_witness :
    customReduce [[(3 : ℚ), 4]] ([1], [0, 1]) = .error .DirectionShapeMismatch :=
  custom_dim_mismatch [[3, 4]] [1] [0, 1] (by decide) (by decide)

/-- C8: two calls of reduce with identical trajectory, method and seed
return identical results, whatever the ambient generator states: for
method random a given seed reseeds the generator, and the other methods
never consult it. -/
theorem reduce_deterministic (m : Method) (traj : List Vec)
    (cd sd : Vec × Vec) (svals : List ℚ) (s : ℕ) (st1 st2 : ℕ) :
    reduce m traj cd sd svals (some s) st1 =
      reduce m traj cd sd svals (some s) st2 := by
  cases m <;> rfl

/-- C9: the global generator is seeded by torch.manual_seed exactly when
the seed argument is truthy; in particular seed 0 leaves the global
generator untouched (behaving like no seed) even though 0 is still
forwarded as the seed argument to DimReduction. -/
theorem seed_zero_unseeded_but_forwarded (seed : Option ℤ) (g : ℤ) :
    globalRngAfterSeedLine seed g =
      (if seedTruthy seed = true then seed.getD g else g) ∧
    seedTruthy (some 0) = false ∧
    globalRngAfterSeedLine (some 0) g = g ∧
    dimReductionSeedArg (some 0) = some 0 ∧
    dimReductionSeedArg seed = seed := by
  refine ⟨?_, rfl, rfl, rfl, rfl⟩
  cases seed with
  | none => rfl
  | some n =>
    by_cases hn : n = 0
    · subst hn; rfl
    · simp [globalRngAfterSeedLine, seedTruthy, hn]

/-- C10: a successful call unzips the sampled records into three parallel
lists of equal length, one entry per sampled step, returning the triple
when return_data is true and None when it is false. -/
theorem return_data_unzipped_triple (sampled : List PathRecord)
    (h : sampled ≠ []) :
    lossLandscapeAnimReturn false sampled = none ∧
    ∃ o l a, lossLandscapeAnimReturn true sampled = some (o, l, a) ∧
      o = sampled.map (fun p => p.flat_w) ∧
      l = sampled.map (fun p => p.loss) ∧
      a = sampled.map (fun p => p.accuracy) ∧
      o.length = sampled.length ∧ l.length = sampled.length ∧
      a.length = sampled.length := by
  refine ⟨rfl, sampled.map (fun p => p.flat_w), sampled.map (fun p => p.loss),
    sampled.map (fun p => p.accuracy), ?_, rfl, rfl, rfl, ?_, ?_, ?_⟩
  · rfl
  all_goals rw [List.length_map]

/-- Witness for C10 at a concrete one-record sample. -/
theorem return_data_unzipped_triple_witness :
    lossLandscapeAnimReturn false [(⟨[1], 2, 3⟩ : PathRecord)] = none ∧
    ∃ o l a, lossLandscapeAnimReturn true [(⟨[1], 2, 3⟩ : PathRecord)] =
        some (o, l, a) ∧
      o = [(⟨[1], 2, 3⟩ : PathRecord)].map (fun p => p.flat_w) ∧
      l = [(⟨[1], 2, 3⟩ : PathRecord)].map (fun p => p.loss) ∧
      a = [(⟨[1], 2, 3⟩ : PathRecord)].map (fun p => p.accuracy) ∧
      o.length = [(⟨[1], 2, 3⟩ : PathRecord)].length ∧
      l.length = [(⟨[1], 2, 3⟩ : PathRecord)].length ∧
      a.length = [(⟨[1], 2, 3⟩ : PathRecord)].length :=
  return_data_unzipped_triple [⟨[1], 2, 3⟩] (by decide)

end LLA
